import Mathlib

/-!
# Verification of `flambe.field.label.LabelField`

Shallow embedding of `src/flambe/field/label.py` (class `LabelField`).

Python dicts are insertion-ordered mappings; we model `self.vocab` and
`self.label_count_dict` as insertion-ordered association lists, where
lookup returns the value of the first matching key, inserting a fresh key
appends at the end, and updating an existing key rewrites the first
matching entry in place.

Fallible operations (dict `KeyError`, iterating `None`) are modelled with
`Except Unit`.

The collaborators `TextField` and `LabelTokenizer` are not part of this
repository snapshot; the definitions that depend on them (`tokenize`,
`LabelField.init`, `textFieldProcess`) are modelled from the spec and say
so in their doc comments.
-/

namespace Flambe

/-- Dict lookup on an insertion-ordered association list: the value of the
first entry whose key equals `key` (Python `d[key]` / `key in d`). -/
def lookupAL {α : Type} : List (String × α) → String → Option α
  | [], _ => none
  | (k, v) :: rest, key => if key = k then some v else lookupAL rest key

/-- Dict update of an existing key: rewrite the first entry whose key
equals `key` in place, preserving insertion order (Python `d[key] = v`
when `key in d`). -/
def updateFirst {α : Type} : List (String × α) → String → α → List (String × α)
  | [], _, _ => []
  | (k, v) :: rest, key, newv =>
      if key = k then (k, newv) :: rest else (k, v) :: updateFirst rest key newv

/-- The keys of an association list, in insertion order (Python
`for label in d` iterates keys in insertion order). -/
def keysOf {α : Type} (l : List (String × α)) : List String := l.map Prod.fst

/-- Modelled from the spec: `LabelTokenizer` (module `flambe.tokenizer`,
not in this repository snapshot). "Given a configured separator, splits
one raw string into an ordered sequence of one or more label-token
strings"; with no separator, the whole string is one token. -/
def tokenize (sep : Option String) (ex : String) : List String :=
  match sep with
  | some s => ex.splitOn s
  | none => [ex]

/-- The state of a `LabelField` instance.
`vocab` is inherited from `TextField`; ids are Python ints (the running
`index` starts at `len(vocab) - 1`, i.e. `-1` on a fresh instance, so we
use `Int`). -/
structure LabelField where
  one_hot : Bool
  multilabel_sep : Option String
  vocab : List (String × Int)
  label_count_dict : List (String × Nat)
deriving DecidableEq, Repr

/-- `LabelField.__init__(one_hot, multilabel_sep)`.
Sets `one_hot`, `multilabel_sep`, `label_count_dict = dict()`.
Modelled from the spec for the `super().__init__` part: `TextField`
(not in this repository snapshot) is constructed with `lower=False`,
`unk_token=None`, `pad_token=None`, so per the spec there are "no
reserved unknown/padding tokens" and the vocabulary starts empty. -/
def LabelField.init (one_hot : Bool) (multilabel_sep : Option String) : LabelField :=
  { one_hot := one_hot
    multilabel_sep := multilabel_sep
    vocab := []
    label_count_dict := [] }

/-- One iteration of the inner loop of `setup`, for a single `token`:

    if token not in self.vocab:
        self.vocab[token] = index = index + 1
        self.label_count_dict[token] = 1
    else:
        self.label_count_dict[token] += 1

The `+= 1` on a key absent from `label_count_dict` would raise `KeyError`
in Python; that path is `Except.error ()`. -/
def addToken (s : LabelField) (index : Int) (token : String) :
    Except Unit (LabelField × Int) :=
  match lookupAL s.vocab token with
  | none =>
      Except.ok
        ({ s with
            vocab := s.vocab ++ [(token, index + 1)]
            label_count_dict := s.label_count_dict ++ [(token, 1)] },
          index + 1)
  | some _ =>
      match lookupAL s.label_count_dict token with
      | some c =>
          Except.ok
            ({ s with label_count_dict := updateFirst s.label_count_dict token (c + 1) },
              index)
      | none => Except.error ()

/-- The inner loop of `setup` over the tokens of one example, with
exceptions propagating out of the loop. -/
def addTokens (s : LabelField) (index : Int) : List String → Except Unit (LabelField × Int)
  | [] => Except.ok (s, index)
  | t :: ts =>
      match addToken s index t with
      | Except.error e => Except.error e
      | Except.ok (s₂, i₂) => addTokens s₂ i₂ ts

/-- The body of `setup`'s outer loop for one `example`: tokenize it and
run the inner token loop. -/
def addExample (s : LabelField) (index : Int) (ex : String) :
    Except Unit (LabelField × Int) :=
  addTokens s index (tokenize s.multilabel_sep ex)

/-- The outer loop of `setup` over the examples of one dataset. -/
def addExamples (s : LabelField) (index : Int) : List String → Except Unit (LabelField × Int)
  | [] => Except.ok (s, index)
  | e :: es =>
      match addExample s index e with
      | Except.error err => Except.error err
      | Except.ok (s₂, i₂) => addExamples s₂ i₂ es

/-- Consuming the `setup` generator

    examples = (e for dataset in data for e in dataset if dataset is not None)

for one `dataset`. Python evaluates the clauses of a generator expression
left to right, so the filter `if dataset is not None` belongs to the inner
loop `for e in dataset` and is only reached after `dataset` has been
iterated: when `dataset` is `None`, `for e in dataset` raises
`TypeError: 'NoneType' object is not iterable` before the filter can skip
anything (the filter is dead code — when it is reached, `dataset` is
never `None`). -/
def addDataset (s : LabelField) (index : Int) (dataset : Option (List String)) :
    Except Unit (LabelField × Int) :=
  match dataset with
  | none => Except.error ()
  | some ds => addExamples s index ds

/-- The loop over the supplied datasets (the outermost level of the
generator), with the `TypeError` of an absent dataset propagating. -/
def addDatasets (s : LabelField) (index : Int) :
    List (Option (List String)) → Except Unit (LabelField × Int)
  | [] => Except.ok (s, index)
  | d :: ds =>
      match addDataset s index d with
      | Except.error err => Except.error err
      | Except.ok (s₂, i₂) => addDatasets s₂ i₂ ds

/-- `LabelField.setup(*data)`. `index` starts at `len(self.vocab) - 1`;
the generator of examples is consumed lazily by the loop, one dataset at
a time. An absent (`None`) dataset raises (see `addDataset`); datasets
before it have already been committed to the instance state when the
exception escapes, but the exception aborts the call. -/
def setup (s : LabelField) (data : List (Option (List String))) :
    Except Unit LabelField :=
  match addDatasets s ((s.vocab.length : Int) - 1) data with
  | Except.error err => Except.error err
  | Except.ok (s₂, _) => Except.ok s₂

/-- A sequence of `setup` calls, each supplying only present (non-`None`)
collections; a raised exception aborts the sequence. -/
def setupSeq (s : LabelField) : List (List (List String)) → Except Unit LabelField
  | [] => Except.ok s
  | call :: calls =>
      match setup s (call.map some) with
      | Except.error err => Except.error err
      | Except.ok s₂ => setupSeq s₂ calls

/-- All tokens observed (with repetitions, in order) by the calls of a
`setupSeq` run. -/
def observedTokens (sep : Option String) (calls : List (List (List String))) :
    List String :=
  calls.flatMap (fun call => call.flatMap (fun ds => ds.flatMap (tokenize sep)))

/-- Deduplication keeping the first occurrence of each element, starting
from an already-collected prefix `acc`. -/
def firstSeenFrom (acc : List String) (ts : List String) : List String :=
  ts.foldl (fun a t => if t ∈ a then a else a ++ [t]) acc

/-- The distinct tokens of `ts` in first-seen order. -/
def firstSeen (ts : List String) : List String := firstSeenFrom [] ts

/-- Modelled from the spec: `TextField.process` (class `TextField` in
`flambe/field/text.py`, not in this repository snapshot). Per the spec,
the base routine "tokenize[s] and map[s] tokens to their vocabulary ids,
producing an ordered sequence of integer ids", and since the field is
built with `unk_token=None` "an unseen label at encode time is not mapped
to a fallback": the vocabulary lookup of an absent token fails
(`KeyError`), modelled as `Except.error ()`. -/
def lookupIds (vocab : List (String × Int)) : List String → Except Unit (List Int)
  | [] => Except.ok []
  | t :: ts =>
      match lookupAL vocab t with
      | none => Except.error ()
      | some i =>
          match lookupIds vocab ts with
          | Except.error e => Except.error e
          | Except.ok is => Except.ok (i :: is)

/-- Modelled from the spec (continued): the tokenize-and-map routine of
the base class, built from `tokenize` and the id lookups `lookupIds`. -/
def textFieldProcess (s : LabelField) (ex : String) :
    Except Unit (List Int) :=
  lookupIds s.vocab (tokenize s.multilabel_sep ex)

/-- The result of `LabelField.process`: either the id sequence (a long
tensor of ids) or, with `one_hot`, the multi-hot 0/1 vector. -/
inductive ProcOut where
  | ids (n : List Int)
  | oneHot (v : List Nat)
deriving DecidableEq, Repr

/-- `LabelField.process(example)`:

    n = super().process(example)
    if self.one_hot:
        n = [int(i in n) for i in range(len(self.vocab))]
        n = torch.tensor(n).long()
    return n
-/
def process (s : LabelField) (ex : String) : Except Unit ProcOut :=
  match textFieldProcess s ex with
  | Except.error e => Except.error e
  | Except.ok n =>
      if s.one_hot then
        Except.ok (ProcOut.oneHot
          ((List.range s.vocab.length).map (fun i : Nat => if (i : Int) ∈ n then 1 else 0)))
      else
        Except.ok (ProcOut.ids n)

/-- `process` with the instance state threaded explicitly. The method body
reads `self.one_hot` and (through the base routine) `self.vocab` and
`self.multilabel_sep`, and contains no assignment to any attribute of
`self`, so the explicit-state translation returns the state unchanged. -/
def processSt (s : LabelField) (ex : String) :
    Except Unit ProcOut × LabelField :=
  (process s ex, s)

/-- Property `label_count`:

    counts = [self.label_count_dict[label] for label in self.vocab]

Iterating a dict yields its keys in insertion order; the comprehension
raises `KeyError` if a vocabulary key is missing from the count dict. -/
def lookupCounts (d : List (String × Nat)) : List String → Except Unit (List Nat)
  | [] => Except.ok []
  | label :: labels =>
      match lookupAL d label with
      | none => Except.error ()
      | some c =>
          match lookupCounts d labels with
          | Except.error e => Except.error e
          | Except.ok cs => Except.ok (c :: cs)

/-- Property `label_count` (see the comprehension quoted on
`lookupCounts`): the counts of the vocabulary keys in insertion order. -/
def label_count (s : LabelField) : Except Unit (List Nat) :=
  lookupCounts s.label_count_dict (keysOf s.vocab)

/-- Property `label_freq`:

    counts = [self.label_count_dict[label] for label in self.vocab]
    return torch.tensor(counts) / sum(counts)

(the comprehension is the same one as in `label_count`). The elementwise
tensor division is modelled over `ℚ`; like the float division of the
tensor library, division is total (it does not raise on a zero
denominator), and over an empty tensor it is performed over zero
entries. -/
def label_freq (s : LabelField) : Except Unit (List ℚ) :=
  match label_count s with
  | Except.error e => Except.error e
  | Except.ok counts =>
      Except.ok (counts.map (fun c : Nat => (c : ℚ) / ((counts.sum : ℚ))))

/-- Property `label_inv_freq`: `return 1. / self.label_freq`, the
elementwise reciprocal of `label_freq`. -/
def label_inv_freq (s : LabelField) : Except Unit (List ℚ) :=
  match label_freq s with
  | Except.error e => Except.error e
  | Except.ok fs => Except.ok (fs.map (fun f => 1 / f))

/-- The sum of all recorded counts. -/
def countSum (s : LabelField) : Nat := (s.label_count_dict.map Prod.snd).sum

/-- Internal invariant of a `LabelField`: the vocabulary and the count
table list the same keys in the same order, the vocabulary keys are
distinct, the ids are `0, 1, ..., n-1` in insertion order, and every
count is at least 1. -/
def Inv (s : LabelField) : Prop :=
  keysOf s.vocab = keysOf s.label_count_dict ∧
  (keysOf s.vocab).Nodup ∧
  s.vocab.map Prod.snd = (List.range s.vocab.length).map Int.ofNat ∧
  ∀ p ∈ s.label_count_dict, 1 ≤ p.2

/-- The invariant claimed by the spec: vocabulary and count table have the
same key set, and every count is strictly positive. -/
def SpecInv (s : LabelField) : Prop :=
  (∀ k, k ∈ keysOf s.vocab ↔ k ∈ keysOf s.label_count_dict) ∧
  ∀ p ∈ s.label_count_dict, 1 ≤ p.2

/-- The states reachable from a freshly constructed encoder by successful
`setup` calls. -/
inductive Reachable : LabelField → Prop
  | init (oh : Bool) (sep : Option String) : Reachable (LabelField.init oh sep)
  | step (s : LabelField) (data : List (Option (List String))) (s₂ : LabelField) :
      Reachable s → setup s data = Except.ok s₂ → Reachable s₂

/-- All tokens a `setup` call on `data` would observe, reading an absent
dataset as contributing no tokens (when `setup` succeeds, no dataset was
absent, so this is exactly what the call observed). -/
def tokensOfData (sep : Option String) (data : List (Option (List String))) :
    List String :=
  data.flatMap (fun d => (d.getD []).flatMap (tokenize sep))

/-! ## Association-list lemmas -/

theorem keysOf_nil {α : Type} : keysOf ([] : List (String × α)) = [] := rfl

theorem keysOf_cons {α : Type} (p : String × α) (l : List (String × α)) :
    keysOf (p :: l) = p.1 :: keysOf l := rfl

theorem keysOf_append {α : Type} (l l₂ : List (String × α)) :
    keysOf (l ++ l₂) = keysOf l ++ keysOf l₂ := List.map_append _ _ _

theorem lookupAL_eq_none_iff {α : Type} (l : List (String × α)) (k : String) :
    lookupAL l k = none ↔ k ∉ keysOf l := by
  induction l with
  | nil => simp [lookupAL, keysOf]
  | cons p rest ih =>
      obtain ⟨k₂, v⟩ := p
      simp only [lookupAL, keysOf_cons]
      by_cases h : k = k₂
      · simp [h]
      · simp [h, ih]

theorem lookupAL_mem {α : Type} (l : List (String × α)) (k : String)
    (h : k ∈ keysOf l) : ∃ v, lookupAL l k = some v := by
  rcases hl : lookupAL l k with _ | v
  · rw [lookupAL_eq_none_iff] at hl
    exact absurd h hl
  · exact ⟨v, rfl⟩

theorem mem_of_lookupAL_some {α : Type} (l : List (String × α)) (k : String) (v : α)
    (h : lookupAL l k = some v) : k ∈ keysOf l := by
  by_contra hk
  rw [← lookupAL_eq_none_iff] at hk
  rw [h] at hk
  exact Option.noConfusion hk

theorem lookupAL_append_of_some {α : Type} (l l₂ : List (String × α)) (k : String) (v : α)
    (h : lookupAL l k = some v) : lookupAL (l ++ l₂) k = some v := by
  induction l with
  | nil => simp [lookupAL] at h
  | cons p rest ih =>
      obtain ⟨k₂, w⟩ := p
      simp only [lookupAL, List.cons_append] at h ⊢
      by_cases hk : k = k₂
      · simpa [hk] using h
      · simp only [if_neg hk] at h ⊢
        exact ih h

theorem keysOf_updateFirst {α : Type} (l : List (String × α)) (k : String) (v : α) :
    keysOf (updateFirst l k v) = keysOf l := by
  induction l with
  | nil => rfl
  | cons p rest ih =>
      obtain ⟨k₂, w⟩ := p
      simp only [updateFirst]
      by_cases hk : k = k₂
      · simp [hk, keysOf_cons]
      · simp [hk, keysOf_cons, ih]

theorem updateFirst_snd_bound {α : Type} (P : α → Prop) (l : List (String × α))
    (k : String) (v : α) (hl : ∀ p ∈ l, P p.2) (hv : P v) :
    ∀ p ∈ updateFirst l k v, P p.2 := by
  induction l with
  | nil => simp [updateFirst]
  | cons q rest ih =>
      obtain ⟨k₂, w⟩ := q
      intro p hp
      simp only [updateFirst] at hp
      by_cases hk : k = k₂
      · simp only [if_pos hk, List.mem_cons] at hp
        rcases hp with h₁ | h₂
        · rw [h₁]
          exact hv
        · exact hl p (List.mem_cons_of_mem _ h₂)
      · simp only [if_neg hk, List.mem_cons] at hp
        rcases hp with h₁ | h₂
        · rw [h₁]
          exact hl (k₂, w) (List.mem_cons_self _ _)
        · exact ih (fun q hq => hl q (List.mem_cons_of_mem _ hq)) p h₂

theorem sum_updateFirst_succ (l : List (String × Nat)) (k : String) (c : Nat)
    (h : lookupAL l k = some c) :
    ((updateFirst l k (c + 1)).map Prod.snd).sum = (l.map Prod.snd).sum + 1 := by
  induction l with
  | nil => simp [lookupAL] at h
  | cons p rest ih =>
      obtain ⟨k₂, w⟩ := p
      simp only [lookupAL] at h
      simp only [updateFirst]
      by_cases hk : k = k₂
      · simp only [if_pos hk] at h ⊢
        have hw : w = c := by
          injection h
        simp [hw, List.map_cons, List.sum_cons]
        omega
      · simp only [if_neg hk] at h ⊢
        simp [List.map_cons, List.sum_cons, ih h]
        omega

theorem lookupCounts_congr (d d₂ : List (String × Nat)) (ks : List String)
    (h : ∀ k ∈ ks, lookupAL d k = lookupAL d₂ k) :
    lookupCounts d ks = lookupCounts d₂ ks := by
  induction ks with
  | nil => rfl
  | cons k ks ih =>
      simp only [lookupCounts]
      rw [← h k (List.mem_cons_self _ _), ih (fun a ha => h a (List.mem_cons_of_mem _ ha))]

theorem lookupCounts_self (d : List (String × Nat)) (hnd : (keysOf d).Nodup) :
    lookupCounts d (keysOf d) = Except.ok (d.map Prod.snd) := by
  induction d with
  | nil => rfl
  | cons p rest ih =>
      obtain ⟨k, v⟩ := p
      rw [keysOf_cons] at hnd ⊢
      have hk : k ∉ keysOf rest := by
        simpa using (List.nodup_cons.mp hnd).1
      have hrest : (keysOf rest).Nodup := (List.nodup_cons.mp hnd).2
      simp only [lookupCounts, lookupAL, if_pos rfl]
      have hcongr : lookupCounts ((k, v) :: rest) (keysOf rest) = lookupCounts rest (keysOf rest) := by
        refine lookupCounts_congr _ _ _ (fun a ha => ?_)
        have : a ≠ k := fun hak => hk (hak ▸ ha)
        simp [lookupAL, this]
      rw [hcongr, ih hrest]
      simp

theorem lookupCounts_ok_length (d : List (String × Nat)) (ks : List String)
    (cs : List Nat) (h : lookupCounts d ks = Except.ok cs) : cs.length = ks.length := by
  induction ks generalizing cs with
  | nil =>
      simp only [lookupCounts] at h
      injection h with h
      rw [← h]
      rfl
  | cons k ks ih =>
      simp only [lookupCounts] at h
      split at h
      · exact Except.noConfusion h
      · split at h
        · exact Except.noConfusion h
        · injection h with h
          rw [← h]
          simp only [List.length_cons]
          rename_i cs₂ hcs₂
          rw [ih cs₂ hcs₂]

/-! ## First-seen order and the setup step relation -/

theorem firstSeenFrom_singleton (acc : List String) (t : String) :
    firstSeenFrom acc [t] = if t ∈ acc then acc else acc ++ [t] := rfl

theorem firstSeenFrom_append (acc : List String) (ts us : List String) :
    firstSeenFrom acc (ts ++ us) = firstSeenFrom (firstSeenFrom acc ts) us :=
  List.foldl_append _ _ _ _

/-- What one run of the `setup` loops over the token sequence `ts` does to
the encoder state: it preserves the internal invariant, extends the
vocabulary keys in first-seen order, adds `ts.length` to the total count,
appends to (never rewrites) the vocabulary, and leaves the configuration
untouched. -/
def Steps (s s₂ : LabelField) (ts : List String) : Prop :=
  Inv s₂ ∧
  keysOf s₂.vocab = firstSeenFrom (keysOf s.vocab) ts ∧
  countSum s₂ = countSum s + ts.length ∧
  (∃ ext, s₂.vocab = s.vocab ++ ext) ∧
  s₂.one_hot = s.one_hot ∧
  s₂.multilabel_sep = s.multilabel_sep

theorem Steps.refl (s : LabelField) (h : Inv s) : Steps s s [] :=
  ⟨h, rfl, (Nat.add_zero _).symm, ⟨[], (List.append_nil _).symm⟩, rfl, rfl⟩

theorem Steps.trans {s s₂ s₃ : LabelField} {ts us : List String}
    (h : Steps s s₂ ts) (h₂ : Steps s₂ s₃ us) : Steps s s₃ (ts ++ us) := by
  obtain ⟨hi, hk, hc, ⟨e₁, he₁⟩, ho, hm⟩ := h
  obtain ⟨hi₂, hk₂, hc₂, ⟨e₂, he₂⟩, ho₂, hm₂⟩ := h₂
  refine ⟨hi₂, ?_, ?_, ⟨e₁ ++ e₂, ?_⟩, ho₂.trans ho, hm₂.trans hm⟩
  · rw [firstSeenFrom_append, ← hk, hk₂]
  · rw [hc₂, hc, List.length_append]
    omega
  · rw [he₂, he₁, List.append_assoc]

theorem addToken_spec (s : LabelField) (t : String) (h : Inv s)
    (r : LabelField × Int)
    (hr : addToken s ((s.vocab.length : Int) - 1) t = Except.ok r) :
    r.2 = ((r.1.vocab.length : Int) - 1) ∧ Steps s r.1 [t] := by
  obtain ⟨hkeys, hnd, hids, hcnt⟩ := h
  unfold addToken at hr
  rcases hv : lookupAL s.vocab t with _ | i
  · rw [hv] at hr
    simp only [] at hr
    injection hr with hr
    have ht : t ∉ keysOf s.vocab := (lookupAL_eq_none_iff _ _).mp hv
    subst hr
    constructor
    · simp only [List.length_append, List.length_cons, List.length_nil]
      push_cast
      ring
    · refine ⟨⟨?_, ?_, ?_, ?_⟩, ?_, ?_, ⟨[(t, (s.vocab.length : Int) - 1 + 1)], rfl⟩, rfl, rfl⟩
      · rw [keysOf_append, keysOf_append, hkeys]
        rfl
      · rw [keysOf_append]
        rw [List.nodup_append]
        refine ⟨hnd, List.nodup_singleton t, ?_⟩
        intro a ha hb
        simp only [keysOf, List.map_cons, List.map_nil, List.mem_cons, List.not_mem_nil,
          or_false] at hb
        exact ht (hb ▸ ha)
      · rw [List.map_append, hids, List.length_append, List.length_cons, List.length_nil,
          List.range_succ, List.map_append]
        congr 1
        simp only [List.map_cons, List.map_nil]
        congr 1
        have hco : Int.ofNat s.vocab.length = (s.vocab.length : Int) := rfl
        rw [hco]
        omega
      · intro p hp
        rcases List.mem_append.mp hp with h₁ | h₂
        · exact hcnt p h₁
        · simp only [List.mem_cons, List.not_mem_nil, or_false] at h₂
          rw [h₂]
      · rw [keysOf_append, firstSeenFrom_singleton, if_neg ht]
        rfl
      · simp [countSum]
  · rw [hv] at hr
    have htv : t ∈ keysOf s.vocab := mem_of_lookupAL_some _ _ _ hv
    have htd : t ∈ keysOf s.label_count_dict := hkeys ▸ htv
    obtain ⟨c, hc⟩ := lookupAL_mem _ _ htd
    rw [hc] at hr
    simp only [] at hr
    injection hr with hr
    subst hr
    constructor
    · rfl
    · refine ⟨⟨?_, hnd, hids, ?_⟩, ?_, ?_, ⟨[], (List.append_nil _).symm⟩, rfl, rfl⟩
      · rw [keysOf_updateFirst, hkeys]
      · exact updateFirst_snd_bound _ _ _ _ hcnt (Nat.le_add_left 1 c)
      · rw [firstSeenFrom_singleton, if_pos htv]
      · simp only [countSum]
        exact sum_updateFirst_succ _ _ _ hc

theorem addTokens_spec (ts : List String) : ∀ s : LabelField, Inv s →
    ∀ r, addTokens s ((s.vocab.length : Int) - 1) ts = Except.ok r →
    r.2 = ((r.1.vocab.length : Int) - 1) ∧ Steps s r.1 ts := by
  induction ts with
  | nil =>
      intro s h r hr
      simp only [addTokens] at hr
      injection hr with hr
      rw [← hr]
      exact ⟨rfl, Steps.refl s h⟩
  | cons t ts ih =>
      intro s h r hr
      simp only [addTokens] at hr
      split at hr
      · exact Except.noConfusion hr
      · rename_i s₂ i₂ ha
        obtain ⟨hi₂, hstep⟩ := addToken_spec s t h (s₂, i₂) ha
        simp only [] at hi₂
        rw [hi₂] at hr
        obtain ⟨hr₂, hsteps⟩ := ih s₂ hstep.1 r hr
        refine ⟨hr₂, ?_⟩
        have := Steps.trans hstep hsteps
        simpa using this

theorem addExample_spec (s : LabelField) (ex : String) (h : Inv s)
    (r : LabelField × Int)
    (hr : addExample s ((s.vocab.length : Int) - 1) ex = Except.ok r) :
    r.2 = ((r.1.vocab.length : Int) - 1) ∧ Steps s r.1 (tokenize s.multilabel_sep ex) :=
  addTokens_spec _ s h r hr

theorem addExamples_spec (es : List String) : ∀ s : LabelField, Inv s →
    ∀ r, addExamples s ((s.vocab.length : Int) - 1) es = Except.ok r →
    r.2 = ((r.1.vocab.length : Int) - 1) ∧
    Steps s r.1 (es.flatMap (tokenize s.multilabel_sep)) := by
  induction es with
  | nil =>
      intro s h r hr
      simp only [addExamples] at hr
      injection hr with hr
      rw [← hr]
      exact ⟨rfl, Steps.refl s h⟩
  | cons e es ih =>
      intro s h r hr
      simp only [addExamples] at hr
      split at hr
      · exact Except.noConfusion hr
      · rename_i s₂ i₂ ha
        obtain ⟨hi₂, hstep⟩ := addExample_spec s e h (s₂, i₂) ha
        simp only [] at hi₂
        rw [hi₂] at hr
        obtain ⟨hr₂, hsteps⟩ := ih s₂ hstep.1 r hr
        refine ⟨hr₂, ?_⟩
        have hsep : s₂.multilabel_sep = s.multilabel_sep := hstep.2.2.2.2.2
        rw [hsep] at hsteps
        have := Steps.trans hstep hsteps
        simpa [List.flatMap_cons] using this

theorem addDatasets_spec (data : List (Option (List String))) : ∀ s : LabelField, Inv s →
    ∀ r, addDatasets s ((s.vocab.length : Int) - 1) data = Except.ok r →
    r.2 = ((r.1.vocab.length : Int) - 1) ∧
    Steps s r.1 (tokensOfData s.multilabel_sep data) := by
  induction data with
  | nil =>
      intro s h r hr
      simp only [addDatasets] at hr
      injection hr with hr
      rw [← hr]
      exact ⟨rfl, Steps.refl s h⟩
  | cons d data ih =>
      intro s h r hr
      simp only [addDatasets] at hr
      split at hr
      · exact Except.noConfusion hr
      · rename_i s₂ i₂ ha
        rcases d with _ | ds
        · exact Except.noConfusion ha
        · simp only [addDataset] at ha
          obtain ⟨hi₂, hstep⟩ := addExamples_spec ds s h (s₂, i₂) ha
          simp only [] at hi₂
          rw [hi₂] at hr
          obtain ⟨hr₂, hsteps⟩ := ih s₂ hstep.1 r hr
          refine ⟨hr₂, ?_⟩
          have hsep : s₂.multilabel_sep = s.multilabel_sep := hstep.2.2.2.2.2
          rw [hsep] at hsteps
          have := Steps.trans hstep hsteps
          simpa [tokensOfData, List.flatMap_cons] using this

theorem setup_spec (s : LabelField) (data : List (Option (List String)))
    (h : Inv s) (s₂ : LabelField) (hr : setup s data = Except.ok s₂) :
    Steps s s₂ (tokensOfData s.multilabel_sep data) := by
  unfold setup at hr
  split at hr
  · exact Except.noConfusion hr
  · rename_i r₂ i₂ ha
    injection hr with hr
    obtain ⟨_, hsteps⟩ := addDatasets_spec data s h (r₂, i₂) ha
    rw [← hr]
    exact hsteps

theorem tokensOfData_map_some (sep : Option String) (call : List (List String)) :
    tokensOfData sep (call.map some) =
      call.flatMap (fun ds => ds.flatMap (tokenize sep)) := by
  induction call with
  | nil => rfl
  | cons ds call ih =>
      simp only [tokensOfData, List.map_cons, List.flatMap_cons, Option.getD_some] at ih ⊢
      rw [ih]

theorem setupSeq_spec (calls : List (List (List String))) : ∀ s : LabelField, Inv s →
    ∀ s₂, setupSeq s calls = Except.ok s₂ →
    Steps s s₂ (observedTokens s.multilabel_sep calls) := by
  induction calls with
  | nil =>
      intro s h s₂ hr
      simp only [setupSeq] at hr
      injection hr with hr
      rw [← hr]
      exact Steps.refl s h
  | cons call calls ih =>
      intro s h s₂ hr
      simp only [setupSeq] at hr
      split at hr
      · exact Except.noConfusion hr
      · rename_i mid hmid
        have hstep := setup_spec s (call.map some) h mid hmid
        rw [tokensOfData_map_some] at hstep
        have hsteps := ih mid hstep.1 s₂ hr
        have hsep : mid.multilabel_sep = s.multilabel_sep := hstep.2.2.2.2.2
        rw [hsep] at hsteps
        have := Steps.trans hstep hsteps
        simpa [observedTokens, List.flatMap_cons] using this

theorem Inv_init (oh : Bool) (sep : Option String) : Inv (LabelField.init oh sep) := by
  refine ⟨rfl, List.nodup_nil, rfl, ?_⟩
  intro p hp
  exact absurd hp (List.not_mem_nil p)

theorem Reachable_inv (s : LabelField) (h : Reachable s) : Inv s := by
  induction h with
  | init oh sep => exact Inv_init oh sep
  | step s data s₂ _ hset ih => exact (setup_spec s data ih s₂ hset).1

theorem label_count_of_inv (s : LabelField) (h : Inv s) :
    label_count s = Except.ok (s.label_count_dict.map Prod.snd) := by
  obtain ⟨hkeys, hnd, _, _⟩ := h
  unfold label_count
  rw [hkeys]
  exact lookupCounts_self _ (hkeys ▸ hnd)

theorem dict_length_of_inv (s : LabelField) (h : Inv s) :
    s.label_count_dict.length = s.vocab.length := by
  have := congrArg List.length h.1
  simpa [keysOf] using this.symm

theorem lookupIds_error (vocab : List (String × Int)) (ts : List String)
    (t : String) (ht : t ∈ ts) (hnv : lookupAL vocab t = none) :
    lookupIds vocab ts = Except.error () := by
  induction ts with
  | nil => exact absurd ht (List.not_mem_nil t)
  | cons u ts ih =>
      rcases List.mem_cons.mp ht with h₁ | h₂
      · rw [← h₁]
        simp only [lookupIds, hnv]
      · simp only [lookupIds]
        rcases hu : lookupAL vocab u with _ | i
        · rfl
        · rw [ih h₂]

theorem sum_map_div_natCast (counts : List Nat) (T : ℚ) :
    (counts.map (fun c : Nat => (c : ℚ) / T)).sum = ((counts.sum : ℕ) : ℚ) / T := by
  induction counts with
  | nil => simp
  | cons c cs ih =>
      simp only [List.map_cons, List.sum_cons, ih, Nat.cast_add, add_div]

/-! ## Claims -/

/-- C1: the spec claims that an absent (`None`) collection passed to
`setup` is skipped entirely with no error. The code instead raises
`TypeError` when the generator reaches the absent collection, because the
`if dataset is not None` filter of the generator expression is attached
to the inner `for e in dataset` loop and is evaluated only after
`dataset` has started being iterated. Evaluating the code at the failing
input — `setup(None)` on a freshly constructed encoder — yields the
error, not a silent skip. -/
theorem setup_none_dataset_raises :
    setup (LabelField.init false none) [none] = Except.error () := rfl

/-- C2: after any sequence of successful `setup` calls on a freshly
constructed encoder, the vocabulary keys are exactly the distinct tokens
observed, in first-seen order; their ids are the dense range `[0, n-1]`
assigned in that same order; and an id once assigned to a token is never
changed by a later `setup` call (repeated calls continue numbering rather
than restarting). -/
theorem setup_vocab_dense_first_seen (oh : Bool) (sep : Option String)
    (calls : List (List (List String))) (s : LabelField)
    (h : setupSeq (LabelField.init oh sep) calls = Except.ok s)
    (data : List (Option (List String))) (s₂ : LabelField)
    (h₂ : setup s data = Except.ok s₂) (t : String) (i : Int)
    (ht : lookupAL s.vocab t = some i) :
    keysOf s.vocab = firstSeen (observedTokens sep calls) ∧
    s.vocab.map Prod.snd = (List.range s.vocab.length).map Int.ofNat ∧
    lookupAL s₂.vocab t = some i := by
  have hsteps := setupSeq_spec calls _ (Inv_init oh sep) s h
  obtain ⟨hinv, hkeys, _, _, _, _⟩ := hsteps
  refine ⟨hkeys, hinv.2.2.1, ?_⟩
  obtain ⟨_, _, _, ⟨ext, hext⟩, _, _⟩ := setup_spec s data hinv s₂ h₂
  rw [hext]
  exact lookupAL_append_of_some _ _ _ _ ht

/-- C2 witness: a concrete run (`setup` on `["cat","dog","cat"]`, then a
second call on `["dog"]`) at token `"cat"`, id `0`. -/
theorem setup_vocab_dense_first_seen_witness :
    keysOf (⟨false, none, [("cat", 0), ("dog", 1)],
        [("cat", 2), ("dog", 1)]⟩ : LabelField).vocab
      = firstSeen (observedTokens none [[["cat", "dog", "cat"]]]) ∧
    (⟨false, none, [("cat", 0), ("dog", 1)],
        [("cat", 2), ("dog", 1)]⟩ : LabelField).vocab.map Prod.snd
      = (List.range (⟨false, none, [("cat", 0), ("dog", 1)],
          [("cat", 2), ("dog", 1)]⟩ : LabelField).vocab.length).map Int.ofNat ∧
    lookupAL (⟨false, none, [("cat", 0), ("dog", 1)],
        [("cat", 2), ("dog", 2)]⟩ : LabelField).vocab "cat" = some 0 :=
  setup_vocab_dense_first_seen false none [[["cat", "dog", "cat"]]]
    ⟨false, none, [("cat", 0), ("dog", 1)], [("cat", 2), ("dog", 1)]⟩ rfl
    [some ["dog"]]
    ⟨false, none, [("cat", 0), ("dog", 1)], [("cat", 2), ("dog", 2)]⟩ rfl
    "cat" 0 rfl

/-- C3: after any sequence of successful `setup` calls on a freshly
constructed encoder, `label_count` is computed without error and its
entries sum to the total number of tokens observed (with repetitions)
across all those calls. -/
theorem label_count_sum_eq_observed (oh : Bool) (sep : Option String)
    (calls : List (List (List String))) (s : LabelField)
    (h : setupSeq (LabelField.init oh sep) calls = Except.ok s) :
    ∃ counts, label_count s = Except.ok counts ∧
      counts.sum = (observedTokens sep calls).length := by
  have hsteps := setupSeq_spec calls _ (Inv_init oh sep) s h
  obtain ⟨hinv, _, hc, _, _, _⟩ := hsteps
  refine ⟨s.label_count_dict.map Prod.snd, label_count_of_inv s hinv, ?_⟩
  simpa [countSum, LabelField.init] using hc

/-- C3 witness: the run on `["cat","dog","cat"]` has counts `[2, 1]`,
which sum to the 3 observed tokens. -/
theorem label_count_sum_eq_observed_witness :
    ∃ counts,
      label_count (⟨false, none, [("cat", 0), ("dog", 1)],
        [("cat", 2), ("dog", 1)]⟩ : LabelField) = Except.ok counts ∧
      counts.sum = (observedTokens none [[["cat", "dog", "cat"]]]).length :=
  label_count_sum_eq_observed false none [[["cat", "dog", "cat"]]]
    ⟨false, none, [("cat", 0), ("dog", 1)], [("cat", 2), ("dog", 1)]⟩ rfl

/-- C4: the invariant "vocabulary and label count table have exactly the
same key set, and every count is at least 1" holds on a freshly
constructed encoder (vacuously, both empty), holds at every state
reachable by `setup` calls (so each successful call preserves it), and
`process` never breaks it (it leaves the state unchanged). -/
theorem vocab_count_lockstep (oh : Bool) (sep : Option String)
    (s : LabelField) (h : Reachable s) (ex : String) :
    SpecInv (LabelField.init oh sep) ∧ SpecInv s ∧ (processSt s ex).2 = s := by
  obtain ⟨hkeys, _, _, hcnt⟩ := Reachable_inv s h
  refine ⟨⟨fun k => Iff.rfl, ?_⟩, ⟨fun k => by rw [hkeys], hcnt⟩, rfl⟩
  intro p hp
  exact absurd hp (List.not_mem_nil p)

/-- C4 witness: the state reached by `setup` on `["cat","dog","cat"]`,
probed with `process("cat")`. -/
theorem vocab_count_lockstep_witness :
    SpecInv (LabelField.init false none) ∧
    SpecInv (⟨false, none, [("cat", 0), ("dog", 1)],
      [("cat", 2), ("dog", 1)]⟩ : LabelField) ∧
    (processSt (⟨false, none, [("cat", 0), ("dog", 1)],
      [("cat", 2), ("dog", 1)]⟩ : LabelField) "cat").2 =
      (⟨false, none, [("cat", 0), ("dog", 1)],
        [("cat", 2), ("dog", 1)]⟩ : LabelField) :=
  vocab_count_lockstep false none _
    (Reachable.step _ [some ["cat", "dog", "cat"]] _
      (Reachable.init false none) rfl) "cat"

/-- C5: for an example whose tokens are all in the vocabulary (so that
processing with `one_hot=False` succeeds with id sequence `l`),
processing the same example with `one_hot=True` yields the vector of
length `|vocabulary|` whose position `i` is 1 exactly when id `i` occurs
in `l` and 0 otherwise. -/
theorem process_one_hot_marks_ids (s : LabelField) (ex : String) (l : List Int)
    (h : process { s with one_hot := false } ex = Except.ok (ProcOut.ids l)) :
    process { s with one_hot := true } ex =
      Except.ok (ProcOut.oneHot ((List.range s.vocab.length).map
        (fun i : Nat => if (i : Int) ∈ l then 1 else 0))) ∧
    ((List.range s.vocab.length).map
        (fun i : Nat => if (i : Int) ∈ l then 1 else 0)).length = s.vocab.length := by
  unfold process at h
  split at h
  · exact Except.noConfusion h
  · rename_i n hn
    simp only [Bool.false_eq_true, if_false] at h
    injection h with h
    have hnl : n = l := by
      injection h
    have htf : textFieldProcess { s with one_hot := true } ex = Except.ok l := by
      rw [← hnl] at *
      exact hn
    unfold process
    rw [htf]
    simp only [if_pos rfl]
    exact ⟨rfl, by rw [List.length_map, List.length_range]⟩

/-- C5 witness: the cat/dog vocabulary, example `"cat"`, id sequence
`[0]`. -/
theorem process_one_hot_marks_ids_witness :
    process { (⟨false, none, [("cat", 0), ("dog", 1)],
        [("cat", 2), ("dog", 1)]⟩ : LabelField) with one_hot := true } "cat" =
      Except.ok (ProcOut.oneHot
        ((List.range (⟨false, none, [("cat", 0), ("dog", 1)],
            [("cat", 2), ("dog", 1)]⟩ : LabelField).vocab.length).map
          (fun i : Nat => if (i : Int) ∈ [(0 : Int)] then 1 else 0))) ∧
    ((List.range (⟨false, none, [("cat", 0), ("dog", 1)],
        [("cat", 2), ("dog", 1)]⟩ : LabelField).vocab.length).map
      (fun i : Nat => if (i : Int) ∈ [(0 : Int)] then 1 else 0)).length =
      (⟨false, none, [("cat", 0), ("dog", 1)],
        [("cat", 2), ("dog", 1)]⟩ : LabelField).vocab.length :=
  process_one_hot_marks_ids
    ⟨false, none, [("cat", 0), ("dog", 1)], [("cat", 2), ("dog", 1)]⟩
    "cat" [(0 : Int)] rfl

/-- C6: on every reachable encoder state with non-empty vocabulary,
`label_freq` and `label_inv_freq` are computed without error, both have
one entry per vocabulary id, and for every id `i` in range,
`label_inv_freq[i] = 1 / label_freq[i]` (exact, over `ℚ`). -/
theorem label_inv_freq_is_reciprocal (s : LabelField) (h : Reachable s)
    (hne : s.vocab ≠ []) (i : Nat) (hi : i < s.vocab.length) :
    ∃ fs iv, label_freq s = Except.ok fs ∧ label_inv_freq s = Except.ok iv ∧
      fs.length = s.vocab.length ∧ iv.length = s.vocab.length ∧
      iv[i]! = 1 / fs[i]! := by
  have hinv := Reachable_inv s h
  have hlc := label_count_of_inv s hinv
  have hlen : s.label_count_dict.length = s.vocab.length := dict_length_of_inv s hinv
  have hfs : label_freq s = Except.ok
      ((s.label_count_dict.map Prod.snd).map
        (fun c : Nat => (c : ℚ) / (((s.label_count_dict.map Prod.snd).sum : ℕ) : ℚ))) := by
    unfold label_freq
    rw [hlc]
  have hiv : label_inv_freq s = Except.ok
      (((s.label_count_dict.map Prod.snd).map
        (fun c : Nat => (c : ℚ) / (((s.label_count_dict.map Prod.snd).sum : ℕ) : ℚ))).map
          (fun f => 1 / f)) := by
    unfold label_inv_freq
    rw [hfs]
  have hflen : ((s.label_count_dict.map Prod.snd).map
      (fun c : Nat => (c : ℚ) / (((s.label_count_dict.map Prod.snd).sum : ℕ) : ℚ))).length
      = s.vocab.length := by
    rw [List.length_map, List.length_map]
    exact hlen
  refine ⟨_, _, hfs, hiv, hflen, ?_, ?_⟩
  · rw [List.length_map]
    exact hflen
  · have hif : i < ((s.label_count_dict.map Prod.snd).map
        (fun c : Nat => (c : ℚ) / (((s.label_count_dict.map Prod.snd).sum : ℕ) : ℚ))).length := by
      rw [hflen]
      exact hi
    have hii : i < (((s.label_count_dict.map Prod.snd).map
        (fun c : Nat => (c : ℚ) / (((s.label_count_dict.map Prod.snd).sum : ℕ) : ℚ))).map
          (fun f => 1 / f)).length := by
      rw [List.length_map]
      exact hif
    rw [getElem!_pos (((s.label_count_dict.map Prod.snd).map
          (fun c : Nat => (c : ℚ) / (((s.label_count_dict.map Prod.snd).sum : ℕ) : ℚ))).map
            (fun f => 1 / f)) i hii,
        getElem!_pos ((s.label_count_dict.map Prod.snd).map
          (fun c : Nat => (c : ℚ) / (((s.label_count_dict.map Prod.snd).sum : ℕ) : ℚ))) i hif,
        List.getElem_map]

/-- C6 witness: the cat/dog state, id `0`. -/
theorem label_inv_freq_is_reciprocal_witness :
    ∃ fs iv,
      label_freq (⟨false, none, [("cat", 0), ("dog", 1)],
        [("cat", 2), ("dog", 1)]⟩ : LabelField) = Except.ok fs ∧
      label_inv_freq (⟨false, none, [("cat", 0), ("dog", 1)],
        [("cat", 2), ("dog", 1)]⟩ : LabelField) = Except.ok iv ∧
      fs.length = (⟨false, none, [("cat", 0), ("dog", 1)],
        [("cat", 2), ("dog", 1)]⟩ : LabelField).vocab.length ∧
      iv.length = (⟨false, none, [("cat", 0), ("dog", 1)],
        [("cat", 2), ("dog", 1)]⟩ : LabelField).vocab.length ∧
      iv[0]! = 1 / fs[0]! :=
  label_inv_freq_is_reciprocal
    ⟨false, none, [("cat", 0), ("dog", 1)], [("cat", 2), ("dog", 1)]⟩
    (Reachable.step _ [some ["cat", "dog", "cat"]] _
      (Reachable.init false none) rfl)
    (by decide) 0 (by decide)

/-- C7: on every reachable encoder state with non-empty vocabulary,
`label_freq` is computed without error and its entries sum to exactly 1
over `ℚ`: it is a categorical probability distribution over the
labels. -/
theorem label_freq_is_distribution (s : LabelField) (h : Reachable s)
    (hne : s.vocab ≠ []) :
    ∃ fs, label_freq s = Except.ok fs ∧ fs.sum = 1 := by
  obtain ⟨hkeys, hnd, hids, hcnt⟩ := Reachable_inv s h
  have hlc := label_count_of_inv s ⟨hkeys, hnd, hids, hcnt⟩
  have hdne : s.label_count_dict ≠ [] := by
    intro hd
    apply hne
    have hkv : keysOf s.vocab = [] := by
      rw [hkeys, hd]
      rfl
    simpa [keysOf] using hkv
  have hpos : 1 ≤ (s.label_count_dict.map Prod.snd).sum := by
    rcases hld : s.label_count_dict with _ | ⟨p, rest⟩
    · exact absurd hld hdne
    · have h1 : 1 ≤ p.2 := hcnt p (by rw [hld]; exact List.mem_cons_self _ _)
      simp only [List.map_cons, List.sum_cons]
      omega
  have hTne : (((s.label_count_dict.map Prod.snd).sum : ℕ) : ℚ) ≠ 0 := by
    have hne₀ : (s.label_count_dict.map Prod.snd).sum ≠ 0 := by omega
    exact_mod_cast hne₀
  refine ⟨_, by unfold label_freq; rw [hlc], ?_⟩
  rw [sum_map_div_natCast]
  exact div_self hTne

/-- C7 witness: the cat/dog state, where `label_freq = [2/3, 1/3]`. -/
theorem label_freq_is_distribution_witness :
    ∃ fs,
      label_freq (⟨false, none, [("cat", 0), ("dog", 1)],
        [("cat", 2), ("dog", 1)]⟩ : LabelField) = Except.ok fs ∧
      fs.sum = 1 :=
  label_freq_is_distribution
    ⟨false, none, [("cat", 0), ("dog", 1)], [("cat", 2), ("dog", 1)]⟩
    (Reachable.step _ [some ["cat", "dog", "cat"]] _
      (Reachable.init false none) rfl)
    (by decide)

/-- C8: for every input example containing a token that is not in the
vocabulary, `process` fails with the lookup error propagated from the
vocabulary mapping access (the encoder is built with no unknown-token
fallback), rather than returning any value. -/
theorem process_unknown_label_fails (s : LabelField) (ex : String) (t : String)
    (ht : t ∈ tokenize s.multilabel_sep ex) (hnv : lookupAL s.vocab t = none) :
    process s ex = Except.error () := by
  unfold process textFieldProcess
  rw [lookupIds_error s.vocab _ t ht hnv]

/-- C8 witness: the cat/dog state on the never-seen label `"bird"`. -/
theorem process_unknown_label_fails_witness :
    process (⟨false, none, [("cat", 0), ("dog", 1)],
      [("cat", 2), ("dog", 1)]⟩ : LabelField) "bird" = Except.error () :=
  process_unknown_label_fails
    ⟨false, none, [("cat", 0), ("dog", 1)], [("cat", 2), ("dog", 1)]⟩
    "bird" "bird" (by decide) rfl

/-- C9: `process` never mutates the encoder state: threading the state
explicitly through the call (whose body contains no assignment to the
instance), the vocabulary and the label count table after the call are
the ones before it, whether the call succeeds or fails, so the result is
a pure function of the current state and the input. -/
theorem process_does_not_mutate (s : LabelField) (ex : String) :
    (processSt s ex).2.vocab = s.vocab ∧
    (processSt s ex).2.label_count_dict = s.label_count_dict ∧
    (processSt s ex).2 = s ∧
    (processSt s ex).1 = process s ex :=
  ⟨rfl, rfl, rfl, rfl⟩

/-- C10: on a freshly constructed encoder (empty vocabulary, no `setup`
call yet), `label_count`, `label_freq` and `label_inv_freq` each return
the empty sequence rather than failing: the per-label division by the
total count is performed over zero entries. -/
theorem fresh_statistics_empty (oh : Bool) (sep : Option String) :
    label_count (LabelField.init oh sep) = Except.ok [] ∧
    label_freq (LabelField.init oh sep) = Except.ok [] ∧
    label_inv_freq (LabelField.init oh sep) = Except.ok [] :=
  ⟨rfl, rfl, rfl⟩

end Flambe
